import Mathlib

/-!
# Verification of the H-Inception architecture construction logic

Shallow embedding of `src/classifiers/H_Inception.py` (class `HINCEPTION`).
All machine integers in the source are counts or indices and are embedded as
`Nat`; filter weights (numpy float arrays holding exact small rationals built
from integer meshes) are embedded as `ℚ`.

The embedding covers:
* the custom-filter generator inside `hybrid_layer` (increasing / decreasing /
  peak kernels, lines 74-138);
* the hybrid layer's kernel bank and its channel count (lines 58-144);
* `_inception_module` (lines 146-189), `_shortcut_layer` (lines 191-202) and
  `build_model` (lines 204-249) as a symbolic construction of the layer graph;
* the kernel-length attributes computed in `__init__` (lines 52-54);
* the label encoding and the mini-batch computation in `fit` (lines 251-267).
-/

namespace HInception

/-! ## Custom filter generator (inside `hybrid_layer`, lines 74-138) -/

/-- Increasing-trend filter (lines 76-79): `np.ones((K, C, 1))`, then rows with
even index are multiplied by `-1`.  Entry `(i, c)` of the result is the weight
at tap `i` for input channel `c` (the trailing numpy axis of size 1 — the single
output channel — is dropped). -/
def increasing_filter (K C : Nat) : List (List Int) :=
  (List.range K).map (fun i => List.replicate C (if i % 2 = 0 then -1 else 1))

/-- Decreasing-trend filter (lines 95-98): `np.ones((K, C, 1))`, then rows with
odd index are multiplied by `-1`. -/
def decreasing_filter (K C : Nat) : List (List Int) :=
  (List.range K).map (fun i => List.replicate C (if i % 2 = 0 then 1 else -1))

/-- `np.linspace(start=0, stop=1, num=n)`: `n` evenly spaced points from 0 to 1
inclusive (for `n ≥ 2` the step is `1/(n-1)`). -/
def linspace01 (num : Nat) : List ℚ :=
  (List.range num).map (fun i : Nat => (i : ℚ) / ((num : ℚ) - 1))

/-- `xmesh` of the peak filter (line 116):
`np.linspace(0, 1, kernel_size//4 + 1)[1:]` — the numpy reshape to
`(-1, 1, 1)` only adds broadcast axes and is dropped here. -/
def xmesh (K : Nat) : List ℚ :=
  (linspace01 (K / 4 + 1)).tail

/-- `filter_left = xmesh ** 2` (line 120): the quadratic ramp. -/
def filter_left (K : Nat) : List ℚ :=
  (xmesh K).map (fun x => x ^ 2)

/-- `filter_right = filter_left[::-1]` (line 121): the reversed ramp. -/
def filter_right (K : Nat) : List ℚ :=
  (filter_left K).reverse

/-- Peak-detection filter tap values (lines 114-128): an array of
`K + K//2` zeros, filled by the six slice assignments
`filter_[0:K//4] = -filter_left`, `filter_[K//4:K//2] = -filter_right`,
`filter_[K//2:3K//4] = 2*filter_left`, `filter_[3K//4:K] = 2*filter_right`,
`filter_[K:5K//4] = -filter_left`, `filter_[5K//4:] = -filter_right`.
Position `p` of the result is the value the slice covering `p` assigns there
(the source only invokes this with `K ∈ {4, 8, 16, 32, 64}`, where every slice
has exactly the length of the assigned array, so the element-wise reading below
is the numpy semantics; the channel axis, a broadcast copy, is dropped as for
the trend filters). -/
def peakFilter (K : Nat) : List ℚ :=
  (List.range (K + K / 2)).map (fun p =>
    if p < K / 4 then -((filter_left K).getD p 0)
    else if p < K / 2 then -((filter_right K).getD (p - K / 4) 0)
    else if p < 3 * K / 4 then 2 * ((filter_left K).getD (p - K / 2) 0)
    else if p < K then 2 * ((filter_right K).getD (p - 3 * K / 4) 0)
    else if p < 5 * K / 4 then -((filter_left K).getD (p - K) 0)
    else -((filter_right K).getD (p - 5 * K / 4) 0))

/-! ## Kernel-length attributes of `__init__` (lines 52-54) -/

/-- `self.increasing_trend_kernels = [2**i for i in range(1, max_cf_length+1)]`. -/
def increasing_trend_kernels (max_cf_length : Nat) : List Nat :=
  (List.range max_cf_length).map (fun i => 2 ^ (i + 1))

/-- `self.decreasing_trend_kernels = [2**i for i in range(1, max_cf_length+1)]`. -/
def decreasing_trend_kernels (max_cf_length : Nat) : List Nat :=
  (List.range max_cf_length).map (fun i => 2 ^ (i + 1))

/-- `self.peak_kernels = [2**i for i in range(2, max_cf_length+1)]`. -/
def peak_kernels (max_cf_length : Nat) : List Nat :=
  (List.range (max_cf_length - 1)).map (fun i => 2 ^ (i + 2))

/-- The default `kernel_sizes` argument of `hybrid_layer` (line 58). The call
site in `_inception_module` (line 180) passes no `kernel_sizes`, so this list
is the one actually used in every model build. -/
def defaultKernelSizes : List Nat := [2, 4, 8, 16, 32, 64]

/-- The bank of custom kernels created by `hybrid_layer` for a given
`kernel_sizes` list, in creation order: one increasing filter per entry
(first loop, line 74), one decreasing filter per entry (second loop, line 93),
one peak filter per entry of `kernel_sizes[1:]` (third loop, line 112).
Each kernel becomes one `Conv1D` with `filters=1`, hence one output channel. -/
inductive HybridFam where
  | inc
  | dec
  | peak
deriving DecidableEq, Repr

def hybridKernels (kernel_sizes : List Nat) : List (HybridFam × Nat) :=
  kernel_sizes.map (fun k => (HybridFam.inc, k))
    ++ kernel_sizes.map (fun k => (HybridFam.dec, k))
    ++ kernel_sizes.tail.map (fun k => (HybridFam.peak, k))

/-! ## Symbolic layer graph

A `KT` term is the symbolic history of a keras tensor as built by the source:
each constructor is one layer application.  Weights of learned layers are not
represented (they are irrelevant to construction); the fixed filters of the
hybrid layer are carried verbatim in `fixedConv`.  `tf.keras.layers.Concatenate`
receives a list of tensors; it is embedded as a left-nested fold of a binary
node, which preserves the only attribute the claims use (the channel sum). -/

inductive KT where
  /-- the `Input` layer (line 210); shape `(length_TS, 1)`, one channel. -/
  | input
  /-- a learned `Conv1D(filters, kernel_size, padding=same, use_bias=False)`. -/
  | conv1d (filters kernel_size : Nat) (t : KT)
  /-- a non-trainable `Conv1D(filters=1, ...)` initialized with the fixed
  weights `w` (one row per tap, one entry per input channel). -/
  | fixedConv (kernel_size : Nat) (w : List (List ℚ)) (t : KT)
  /-- `MaxPool1D(pool_size, strides=1, padding=same)`. -/
  | maxpool (pool_size : Nat) (t : KT)
  /-- binary concatenation along the channel axis. -/
  | concat2 (a b : KT)
  /-- `BatchNormalization`. -/
  | bn (t : KT)
  /-- `Activation('relu')`. -/
  | relu (t : KT)
  /-- `Add()([a, b])`. -/
  | add (a b : KT)
  /-- `GlobalAveragePooling1D`. -/
  | gap (t : KT)
  /-- `Dense(units, activation=softmax)`. -/
  | dense (units : Nat) (t : KT)
deriving DecidableEq, Repr

/-- `Concatenate(axis=2)` applied to a non-empty branch list `t :: ts`. -/
def concatAll (t : KT) : List KT → KT
  | [] => t
  | u :: us => concatAll (KT.concat2 t u) us

def concatList : List KT → KT
  | [] => KT.input
  | t :: ts => concatAll t ts

/-- Channel count of a symbolic tensor (`tensor.shape[-1]` in the source):
the network input is univariate (`input_shape = (length_TS, 1)`, line 208). -/
def channels : KT → Nat
  | KT.input => 1
  | KT.conv1d f _ _ => f
  | KT.fixedConv _ _ _ => 1
  | KT.maxpool _ t => channels t
  | KT.concat2 a b => channels a + channels b
  | KT.bn t => channels t
  | KT.relu t => channels t
  | KT.add _ b => channels b
  | KT.gap t => channels t
  | KT.dense u _ => u

/-- `hybrid_layer` (lines 58-144).  `kt` is `self.keep_track`, incremented once
per created convolution; the result pairs the output tensor with the updated
counter.  The three loops create, in order, the increasing filters, the
decreasing filters, and (for `kernel_sizes[1:]`) the peak filters, each as a
non-trainable `Conv1D` with one output channel applied to `input_tensor`; the
peak convolution's `kernel_size` argument is `kernel_size + kernel_size // 2`
(line 132).  The branch outputs are concatenated on the channel axis and passed
through ReLU (lines 141-142). -/
def hybrid_layer (kernel_sizes : List Nat) (kt : Nat) (input_tensor : KT) :
    KT × Nat :=
  let C := channels input_tensor
  let incs := kernel_sizes.map (fun k =>
    KT.fixedConv k ((increasing_filter k C).map (fun r => r.map Int.cast))
      input_tensor)
  let decs := kernel_sizes.map (fun k =>
    KT.fixedConv k ((decreasing_filter k C).map (fun r => r.map Int.cast))
      input_tensor)
  let peaks := kernel_sizes.tail.map (fun k =>
    KT.fixedConv (k + k / 2) ((peakFilter k).map (List.replicate C))
      input_tensor)
  let conv_list := incs ++ decs ++ peaks
  (KT.relu (concatList conv_list), kt + conv_list.length)

/-- `self.kernel_sizes = [40, 20, 10]` (line 41). -/
def kernel_sizes : List Nat := [40, 20, 10]

/-- `_inception_module` (lines 146-189) with `stride = 1` and linear internal
activation (the defaults, never overridden).  `bottleneck_size = n_filters`
(line 44).  The hybrid layer, when requested, is applied to the raw
`input_tensor` (line 180) — not to the bottlenecked `input_inception` — and is
called without a `kernel_sizes` argument, so with `defaultKernelSizes`. -/
def inception_module (use_bottleneck : Bool) (n_filters : Nat) (kt : Nat)
    (input_tensor : KT) (use_hybrid_layer : Bool) : KT × Nat :=
  let input_inception :=
    if use_bottleneck && decide (1 < channels input_tensor) then
      KT.conv1d n_filters 1 input_tensor
    else input_tensor
  let conv_list := kernel_sizes.map (fun k =>
    KT.conv1d n_filters k input_inception)
  let max_pool_1 := KT.maxpool 3 input_tensor
  let conv_6 := KT.conv1d n_filters 1 max_pool_1
  let conv_list := conv_list ++ [conv_6]
  let withHybrid :=
    if use_hybrid_layer then
      let h := hybrid_layer defaultKernelSizes kt input_tensor
      (conv_list ++ [h.1], h.2)
    else (conv_list, kt)
  (KT.relu (KT.bn (concatList withHybrid.1)), withHybrid.2)

/-- `_shortcut_layer` (lines 191-202): project the anchor to the current
channel count with a 1×1 convolution, batch-normalize, add, ReLU. -/
def shortcut_layer (input_tensor out_tensor : KT) : KT :=
  KT.relu (KT.add (KT.bn (KT.conv1d (channels out_tensor) 1 input_tensor))
    out_tensor)

/-! ## Network assembler (`build_model`, lines 204-239) -/

/-- The constructor arguments of `HINCEPTION.__init__` (lines 14-15) that the
graph construction reads, with the constructor's default values. -/
structure Config where
  length_TS : Nat
  n_classes : Nat
  batch_size : Nat := 64
  max_cf_length : Nat := 6
  n_filters : Nat := 32
  use_residual : Bool := true
  use_bottleneck : Bool := true
  depth : Nat := 6

/-- The mutable state threaded through the depth loop of `build_model`:
the current tensor `x`, the residual anchor `input_res` (both initialized to
the input layer, lines 212-213), and `self.keep_track` (set to 0 at line 206). -/
structure BuildState where
  x : KT
  input_res : KT
  keep_track : Nat
deriving DecidableEq, Repr

/-- One iteration of the loop `for d in range(self.depth)` (lines 217-230):
run the inception module on `x` with the hybrid layer exactly when `d == 0`;
then, if residual connections are on and `d % 3 == 2`, apply the shortcut
layer with anchor `input_res` and reassign both `x` and `input_res` to its
output. -/
def buildStep (cfg : Config) (s : BuildState) (d : Nat) : BuildState :=
  let p := inception_module cfg.use_bottleneck cfg.n_filters s.keep_track s.x
    (d == 0)
  if cfg.use_residual && d % 3 == 2 then
    let xs := shortcut_layer s.input_res p.1
    ⟨xs, xs, p.2⟩
  else
    ⟨p.1, s.input_res, p.2⟩

/-- The state after the first `depth` iterations of the loop. -/
def buildLoop (cfg : Config) (depth : Nat) : BuildState :=
  (List.range depth).foldl (buildStep cfg) ⟨KT.input, KT.input, 0⟩

/-- `build_model` (lines 204-236): the full loop, then global average pooling
and the dense softmax head with `n_classes` units.  The source raises nowhere
in this method; construction is unconditional. -/
def build_model (cfg : Config) : KT :=
  KT.dense cfg.n_classes (KT.gap (buildLoop cfg cfg.depth).x)

/-- Whether a tensor is (the output of) a shortcut layer: `_shortcut_layer` is
the only place producing `relu (add _ _)`; inception modules produce
`relu (bn _)`. -/
def isShortcutTop : KT → Bool
  | KT.relu (KT.add _ _) => true
  | _ => false

/-- The depth indices `d` after whose iteration the current tensor is a
shortcut output, i.e. the module indices at which a shortcut module fired. -/
def shortcutIndices (cfg : Config) : List Nat :=
  (List.range cfg.depth).filter (fun d => isShortcutTop (buildLoop cfg (d + 1)).x)

/-! ## `fit` (lines 251-267) -/

/-- `mini_batch_size = min(self.batch_size, n // 10)` (line 257), where
`n = xtrain.shape[0]` is the number of training samples; both are counts. -/
def mini_batch_size (batch_size n : Nat) : Nat :=
  min batch_size (n / 10)

/-- Insertion into a sorted list of labels. -/
def insertSorted (x : Int) : List Int → List Int
  | [] => [x]
  | y :: ys => if x ≤ y then x :: y :: ys else y :: insertSorted x ys

def sortInts (l : List Int) : List Int := l.foldr insertSorted []

/-- Modelled from the spec: the external label encoder (`sklearn
OneHotEncoder`, not part of this repository) infers its categories when fit as
the sorted distinct values of the label sequence. -/
def ohe_categories (ys : List Int) : List Int :=
  sortInts ys.dedup

/-- Modelled from the spec: the fit encoder one-hot encodes each label into an
indicator row over its category list. -/
def ohe_transform (cats : List Int) (ys : List Int) : List (List Nat) :=
  ys.map (fun y => cats.map (fun c => if c = y then 1 else 0))

/-- `fit_transform`: fit the categories on `ys`, then encode `ys`. -/
def ohe_fit_transform (ys : List Int) : List (List Nat) :=
  ohe_transform (ohe_categories ys) ys

/-- The label encoding performed by `fit` (lines 259-267): a fresh encoder is
fit-transformed on the training labels; if `plot_test` is set, a second fresh
encoder is fit-transformed on the validation labels alone. -/
def fit_label_encoding (ytrain yval : List Int) (plot_test : Bool) :
    List (List Nat) × Option (List (List Nat)) :=
  let ytrainE := ohe_fit_transform ytrain
  if plot_test then (ytrainE, some (ohe_fit_transform yval))
  else (ytrainE, none)

/-! ## Helper lemmas -/

/-- `getD` of a `map` over `range` at an in-range index. -/
theorem getD_map_range {α : Type} (n i : Nat) (f : Nat → α) (d : α) (h : i < n) :
    ((List.range n).map f).getD i d = f i := by
  rw [List.getD_eq_getElem _ _ (by simpa using h)]
  simp

/-- Mapping an index-wise read of a list over `range` of its length recovers a
plain `map`. -/
theorem map_getD_range {α β : Type} (l : List α) (d : α) (f : α → β) :
    (List.range l.length).map (fun j => f (l.getD j d)) = l.map f := by
  induction l with
  | nil => rfl
  | cons a t ih =>
      rw [List.length_cons, List.range_succ_eq_map, List.map_cons, List.map_map]
      refine congrArg₂ List.cons rfl ?_
      rw [← ih]
      refine List.map_congr_left fun j _ => ?_
      simp [Function.comp, List.getD_cons_succ]

/-- Splitting a `map` over `range (m + n)` into two segments. -/
theorem range_map_add {α : Type} (m n : Nat) (f : Nat → α) :
    (List.range (m + n)).map f
      = (List.range m).map f ++ (List.range n).map (fun j => f (m + j)) := by
  rw [List.range_add, List.map_append, List.map_map]
  rfl

/-- Closed form of `xmesh`: `K/4` points `(j+1)/(K/4)` for `j = 0, …, K/4 - 1`. -/
theorem xmesh_eq (K : Nat) :
    xmesh K = (List.range (K / 4)).map
      (fun j : Nat => ((j : ℚ) + 1) / ((K / 4 : Nat) : ℚ)) := by
  unfold xmesh linspace01
  rw [List.range_succ_eq_map, List.map_cons, List.tail_cons, List.map_map]
  refine List.map_congr_left fun j _ => ?_
  simp only [Function.comp]
  push_cast
  ring_nf

/-- Splitting a `map` over `range` of a sum of six equal segment lengths. -/
theorem range_map_six {α : Type} (q : Nat) (f : Nat → α) :
    (List.range (q + (q + (q + (q + (q + q)))))).map f
      = (List.range q).map f
        ++ (List.range q).map (fun j => f (q + j))
        ++ (List.range q).map (fun j => f (2 * q + j))
        ++ (List.range q).map (fun j => f (3 * q + j))
        ++ (List.range q).map (fun j => f (4 * q + j))
        ++ (List.range q).map (fun j => f (5 * q + j)) := by
  rw [range_map_add, range_map_add, range_map_add, range_map_add, range_map_add]
  simp only [List.append_assoc]
  refine congrArg₂ (· ++ ·) rfl ?_
  refine congrArg₂ (· ++ ·) rfl ?_
  refine congrArg₂ (· ++ ·) ?_ (congrArg₂ (· ++ ·) ?_ (congrArg₂ (· ++ ·) ?_ ?_)) <;>
    exact List.map_congr_left fun j _ => congrArg f (by ring)

/-! ## Claim theorems -/

/-- C4: for every kernel length `K` and channel count `C`, the
increasing-trend kernel has weight `+1` at every odd 0-indexed tap and `-1` at
every even tap, identically across all input channels, and the
decreasing-trend kernel for the same `K` is its exact sign-inverse at every
tap. -/
theorem increasing_decreasing_sign_inverse (K C i c : Nat)
    (hi : i < K) (hc : c < C) :
    (((increasing_filter K C).getD i []).getD c 0
        = if i % 2 = 1 then 1 else -1)
    ∧ decreasing_filter K C
        = (increasing_filter K C).map (fun r => r.map (fun v => -v)) := by
  constructor
  · rw [increasing_filter, getD_map_range _ _ _ _ hi,
      List.getD_eq_getElem _ _ (by simpa using hc)]
    rcases Nat.mod_two_eq_zero_or_one i with h | h <;> simp [h]
  · unfold increasing_filter decreasing_filter
    rw [List.map_map]
    refine List.map_congr_left fun i _ => ?_
    rcases Nat.mod_two_eq_zero_or_one i with h | h <;>
      simp [Function.comp, h, List.map_replicate]

theorem increasing_decreasing_sign_inverse_witness :
    (((increasing_filter 4 2).getD 1 []).getD 0 0
        = if 1 % 2 = 1 then 1 else -1)
    ∧ decreasing_filter 4 2
        = (increasing_filter 4 2).map (fun r => r.map (fun v => -v)) :=
  increasing_decreasing_sign_inverse 4 2 1 0 (by decide) (by decide)

/-- C10: the batch size actually passed to training is
`min(batch_size, n // 10)`, not the configured `batch_size` itself; in
particular for `n < 10` it is `0` whatever the configured value, and for a
concrete configuration (`batch_size = 64`, `n = 50`) the configured value is
not used. -/
theorem fit_batch_size_clamped :
    (∀ b n : Nat, mini_batch_size b n = min b (n / 10))
    ∧ (∀ b n : Nat, n < 10 → mini_batch_size b n = 0)
    ∧ mini_batch_size 64 50 = 5
    ∧ mini_batch_size 64 50 ≠ 64 := by
  refine ⟨fun b n => rfl, fun b n h => ?_, by decide, by decide⟩
  have : n / 10 = 0 := Nat.div_eq_of_lt h
  simp [mini_batch_size, this]

theorem fit_batch_size_clamped_witness : mini_batch_size 64 7 = 0 :=
  fit_batch_size_clamped.2.1 64 7 (by decide)

/-- C9: `fit` refits the one-hot encoder per call: the training labels are
encoded by an encoder fit on the training label sequence, the validation
labels by a separate freshly fit encoder fit only on the validation label
sequence (so the validation encoding is independent of the training labels),
and when the class sets differ the two encodings disagree on a shared label
(label `1` is `[0, 1]` under the training encoder but `[1, 0]` under the
validation encoder for `ytrain = [0, 1]`, `yval = [1, 2]`). -/
theorem label_encoder_refit_per_call :
    (∀ ytrain yval : List Int,
        fit_label_encoding ytrain yval true
          = (ohe_transform (ohe_categories ytrain) ytrain,
              some (ohe_transform (ohe_categories yval) yval)))
    ∧ (∀ y₁ y₂ v : List Int,
        (fit_label_encoding y₁ v true).2 = (fit_label_encoding y₂ v true).2)
    ∧ (fit_label_encoding [0, 1] [1, 2] true).1
        = [[1, 0], [0, 1]]
    ∧ (fit_label_encoding [0, 1] [1, 2] true).2
        = some [[1, 0], [0, 1]]
    ∧ (fit_label_encoding [0, 1] [1, 2] true).1.getD 1 []
        ≠ ((fit_label_encoding [0, 1] [1, 2] true).2.getD []).getD 0 [] := by
  exact ⟨fun ytrain yval => rfl, fun y₁ y₂ v => rfl,
    by decide, by decide, by decide⟩

/-- C5: for every peak kernel length `K` of the generated family (the source
only generates peak filters for `K ∈ {4, 8, 16, 32, 64}`, all multiples of 4),
the kernel spans `K + K/2` taps; `xmesh` holds `K/4` equally spaced points
`(j+1)/(K/4)`, all in `(0, 1]`; and the kernel is exactly the six contiguous
segments `-ramp`, `-reversed ramp`, `+2·ramp`, `+2·reversed ramp`, `-ramp`,
`-reversed ramp` in order, with boundaries `K/4, K/2, 3K/4, K, 5K/4` computed
by integer division of the original `K`. -/
theorem peak_kernel_structure (K : Nat) (h4 : K % 4 = 0) (hK : 4 ≤ K) :
    (peakFilter K).length = K + K / 2
    ∧ (xmesh K).length = K / 4
    ∧ (∀ j, j < K / 4 →
        (xmesh K).getD j 0 = ((j : ℚ) + 1) / ((K / 4 : Nat) : ℚ))
    ∧ (∀ x ∈ xmesh K, 0 < x ∧ x ≤ 1)
    ∧ peakFilter K
        = (filter_left K).map (fun v => -v)
          ++ (filter_right K).map (fun v => -v)
          ++ (filter_left K).map (fun v => 2 * v)
          ++ (filter_right K).map (fun v => 2 * v)
          ++ (filter_left K).map (fun v => -v)
          ++ (filter_right K).map (fun v => -v) := by
  have hlenx : (xmesh K).length = K / 4 := by simp [xmesh, linspace01]
  have hlfl : (filter_left K).length = K / 4 := by simp [filter_left, hlenx]
  have hlfr : (filter_right K).length = K / 4 := by simp [filter_right, hlfl]
  refine ⟨by simp [peakFilter], hlenx, ?_, ?_, ?_⟩
  · intro j hj
    rw [xmesh_eq, getD_map_range _ _ _ _ hj]
  · intro x hx'
    rw [xmesh_eq] at hx'
    simp only [List.mem_map, List.mem_range] at hx'
    obtain ⟨j, hj, rfl⟩ := hx'
    have hqpos : (0 : ℚ) < ((K / 4 : Nat) : ℚ) := by
      exact_mod_cast Nat.pos_of_ne_zero (by omega)
    refine ⟨div_pos (by positivity) hqpos, ?_⟩
    rw [div_le_one hqpos]
    exact_mod_cast hj
  · unfold peakFilter
    rw [show K + K / 2 = K / 4 + (K / 4 + (K / 4 + (K / 4 + (K / 4 + K / 4))))
      from by omega]
    rw [range_map_six]
    refine congrArg₂ (· ++ ·) (congrArg₂ (· ++ ·) (congrArg₂ (· ++ ·)
      (congrArg₂ (· ++ ·) (congrArg₂ (· ++ ·) ?_ ?_) ?_) ?_) ?_) ?_
    · rw [← map_getD_range (filter_left K) 0 (fun v => -v), hlfl]
      refine List.map_congr_left fun j hj => ?_
      rw [List.mem_range] at hj
      rw [if_pos (show j < K / 4 by omega)]
    · rw [← map_getD_range (filter_right K) 0 (fun v => -v), hlfr]
      refine List.map_congr_left fun j hj => ?_
      rw [List.mem_range] at hj
      rw [if_neg (show ¬ K / 4 + j < K / 4 by omega),
        if_pos (show K / 4 + j < K / 2 by omega),
        show K / 4 + j - K / 4 = j from by omega]
    · rw [← map_getD_range (filter_left K) 0 (fun v => 2 * v), hlfl]
      refine List.map_congr_left fun j hj => ?_
      rw [List.mem_range] at hj
      rw [if_neg (show ¬ 2 * (K / 4) + j < K / 4 by omega),
        if_neg (show ¬ 2 * (K / 4) + j < K / 2 by omega),
        if_pos (show 2 * (K / 4) + j < 3 * K / 4 by omega),
        show 2 * (K / 4) + j - K / 2 = j from by omega]
    · rw [← map_getD_range (filter_right K) 0 (fun v => 2 * v), hlfr]
      refine List.map_congr_left fun j hj => ?_
      rw [List.mem_range] at hj
      rw [if_neg (show ¬ 3 * (K / 4) + j < K / 4 by omega),
        if_neg (show ¬ 3 * (K / 4) + j < K / 2 by omega),
        if_neg (show ¬ 3 * (K / 4) + j < 3 * K / 4 by omega),
        if_pos (show 3 * (K / 4) + j < K by omega),
        show 3 * (K / 4) + j - 3 * K / 4 = j from by omega]
    · rw [← map_getD_range (filter_left K) 0 (fun v => -v), hlfl]
      refine List.map_congr_left fun j hj => ?_
      rw [List.mem_range] at hj
      rw [if_neg (show ¬ 4 * (K / 4) + j < K / 4 by omega),
        if_neg (show ¬ 4 * (K / 4) + j < K / 2 by omega),
        if_neg (show ¬ 4 * (K / 4) + j < 3 * K / 4 by omega),
        if_neg (show ¬ 4 * (K / 4) + j < K by omega),
        if_pos (show 4 * (K / 4) + j < 5 * K / 4 by omega),
        show 4 * (K / 4) + j - K = j from by omega]
    · rw [← map_getD_range (filter_right K) 0 (fun v => -v), hlfr]
      refine List.map_congr_left fun j hj => ?_
      rw [List.mem_range] at hj
      rw [if_neg (show ¬ 5 * (K / 4) + j < K / 4 by omega),
        if_neg (show ¬ 5 * (K / 4) + j < K / 2 by omega),
        if_neg (show ¬ 5 * (K / 4) + j < 3 * K / 4 by omega),
        if_neg (show ¬ 5 * (K / 4) + j < K by omega),
        if_neg (show ¬ 5 * (K / 4) + j < 5 * K / 4 by omega),
        show 5 * (K / 4) + j - 5 * K / 4 = j from by omega]

theorem peak_kernel_structure_witness :
    (peakFilter 8).length = 8 + 8 / 2 :=
  (peak_kernel_structure 8 (by decide) (by decide)).1

/-- C2 (counterexample): at `K = 4` the peak kernel is
`[-1, -1, 2, 2, -1, -1]`; segment 1 (position 0) holds `-1` while the negation
of segment 5 (position 4) is `1`, so segment 1 is NOT the negation of
segment 5. -/
theorem peak_segment_negation_counterexample :
    ¬ ((peakFilter 4).getD 0 0 = -((peakFilter 4).getD 4 0)) := by
  have h0 : (peakFilter 4).getD 0 0 = -1 := by
    rw [peakFilter, getD_map_range _ _ _ _ (by norm_num)]
    norm_num [filter_left, filter_right, xmesh, linspace01, List.range_succ,
      List.getD]
  have h4 : (peakFilter 4).getD 4 0 = -1 := by
    rw [peakFilter, getD_map_range _ _ _ _ (by norm_num)]
    norm_num [filter_left, filter_right, xmesh, linspace01, List.range_succ,
      List.getD]
  rw [h0, h4]
  norm_num

/-- C2 (amended): for every kernel length `K` of the generated peak family
(a multiple of 4, at least 4), the peak kernel has length exactly `K + K//2`,
and the values in segment 1 (positions `[0, K/4)`) are EQUAL to the values in
segment 5 (positions `[K, 5K/4)`) — both segments are the negated quadratic
ramp — consistently with the documented slicing. -/
theorem peak_kernel_length_and_side_lobes (K : Nat) (h4 : K % 4 = 0)
    (hK : 4 ≤ K) :
    (peakFilter K).length = K + K / 2
    ∧ ∀ p, p < K / 4 →
        (peakFilter K).getD p 0 = (peakFilter K).getD (K + p) 0 := by
  refine ⟨by simp [peakFilter], fun p hp => ?_⟩
  rw [peakFilter, getD_map_range _ _ _ _ (show p < K + K / 2 by omega),
    getD_map_range _ _ _ _ (show K + p < K + K / 2 by omega)]
  rw [if_pos hp]
  rw [if_neg (show ¬ K + p < K / 4 by omega),
    if_neg (show ¬ K + p < K / 2 by omega),
    if_neg (show ¬ K + p < 3 * K / 4 by omega),
    if_neg (show ¬ K + p < K by omega),
    if_pos (show K + p < 5 * K / 4 by omega),
    show K + p - K = p from by omega]

theorem peak_kernel_length_and_side_lobes_witness :
    (peakFilter 8).getD 0 0 = (peakFilter 8).getD 8 0 :=
  (peak_kernel_length_and_side_lobes 8 (by decide) (by decide)).2 0 (by decide)

/-- Unfolding one iteration of the depth loop. -/
theorem buildLoop_succ (cfg : Config) (n : Nat) :
    buildLoop cfg (n + 1) = buildStep cfg (buildLoop cfg n) n := by
  rw [buildLoop, buildLoop, List.range_succ, List.foldl_append, List.foldl_cons,
    List.foldl_nil]

/-- A hybrid-bearing inception module advances `keep_track` by the bank size. -/
theorem inception_keep_track_true (ub : Bool) (nf kt : Nat) (t : KT) :
    (inception_module ub nf kt t true).2 = kt + 17 := rfl

/-- An inception module without the hybrid layer leaves `keep_track` alone. -/
theorem inception_keep_track_false (ub : Bool) (nf kt : Nat) (t : KT) :
    (inception_module ub nf kt t false).2 = kt := rfl

/-- `keep_track` grows by 17 at depth index 0 and is untouched elsewhere. -/
theorem buildStep_keep_track (cfg : Config) (s : BuildState) (d : Nat) :
    (buildStep cfg s d).keep_track
      = if d = 0 then s.keep_track + 17 else s.keep_track := by
  rcases Nat.eq_zero_or_pos d with hd | hd
  · subst hd
    by_cases hc : (cfg.use_residual && 0 % 3 == 2) = true
    · simp [buildStep, hc, inception_keep_track_true]
    · simp [buildStep, hc, inception_keep_track_true]
  · have hne : d ≠ 0 := by omega
    have hb : (d == 0) = false := by simpa using hne
    by_cases hc : (cfg.use_residual && d % 3 == 2) = true
    · simp [buildStep, hc, hb, hne, inception_keep_track_false]
    · simp [buildStep, hc, hb, hne, inception_keep_track_false]

/-- C1 (code evaluated at the failing input): the hybrid layer's kernel bank
and hence its channel count do not depend on `max_cf_length` — the call in
`_inception_module` (line 180) passes no `kernel_sizes`, so the default
`[2, 4, 8, 16, 32, 64]` is always used, giving 17 channels and, e.g., an
increasing filter of length 16; the attributes computed from
`max_cf_length = 3` in `__init__` (lines 52-54) are `[2, 4, 8]` / `[2, 4, 8]`
/ `[4, 8]` (8 kernels in total, the count `2·M + (M−1)` the claim expects),
and `17 ≠ 2·3 + (3−1)`. -/
theorem hybrid_kernel_bank_ignores_max_cf_length :
    (∀ (kt : Nat) (t : KT),
        channels (hybrid_layer defaultKernelSizes kt t).1 = 17)
    ∧ (hybridKernels defaultKernelSizes).length = 17
    ∧ (HybridFam.inc, 16) ∈ hybridKernels defaultKernelSizes
    ∧ increasing_trend_kernels 3 = [2, 4, 8]
    ∧ decreasing_trend_kernels 3 = [2, 4, 8]
    ∧ peak_kernels 3 = [4, 8]
    ∧ (16 : Nat) ∉ increasing_trend_kernels 3
    ∧ (increasing_trend_kernels 3).length + (decreasing_trend_kernels 3).length
        + (peak_kernels 3).length = 2 * 3 + (3 - 1)
    ∧ (17 : Nat) ≠ 2 * 3 + (3 - 1) := by
  exact ⟨fun kt t => rfl, by decide, by decide, by decide, by decide, by decide,
    by decide, by decide, by decide⟩

/-- C6: an inception module outputs `3·n_filters` channels from the three
parallel convolutions plus `n_filters` from the pooled and projected branch,
plus the hybrid layer's channel count (17) when the hybrid layer is fused;
with `n_filters = 32` and no hybrid that is 128 channels, with hybrid 145. -/
theorem inception_module_channel_count (ub : Bool) (nf kt : Nat) (t : KT)
    (uh : Bool) :
    channels (inception_module ub nf kt t uh).1
        = 3 * nf + nf + (if uh then 17 else 0)
    ∧ channels (inception_module ub 32 kt t false).1 = 128
    ∧ channels (inception_module ub 32 kt t true).1 = 145 := by
  refine ⟨?_, ?_, ?_⟩
  · cases uh
    · have h : channels (inception_module ub nf kt t false).1
          = nf + nf + nf + nf := rfl
      rw [h]
      simp only [Bool.false_eq_true, if_false]
      omega
    · have h : channels (inception_module ub nf kt t true).1
          = nf + nf + nf + nf + 17 := rfl
      rw [h]
      simp only [if_true]
      omega
  · rfl
  · rfl

/-- C3 (counterexample): a malformed configuration with `depth = 0 < 1` does
NOT fail at build time: `build_model` performs no validation and the depth
loop simply runs zero times, so construction succeeds and yields a complete
model — input, global average pooling, dense softmax head — with no inception
module in it. -/
theorem build_succeeds_at_depth_zero :
    build_model { length_TS := 100, n_classes := 2, depth := 0 }
      = KT.dense 2 (KT.gap KT.input) := rfl

/-- C3 (amended): `build_model` performs no configuration validation of its
own; for every configuration with `depth = 0` (the claim's example of a
malformed configuration, `depth < 1`) construction completes unconditionally
and produces the degenerate model `dense n_classes (gap input)` — every layer
the build actually instantiates receives well-formed parameters, so not even
the external framework's shape validation is triggered. -/
theorem build_model_no_validation (cfg : Config) (h : cfg.depth = 0) :
    build_model cfg = KT.dense cfg.n_classes (KT.gap KT.input) := by
  simp [build_model, buildLoop, h]

theorem build_model_no_validation_witness :
    build_model { length_TS := 50, n_classes := 3, depth := 0 }
      = KT.dense 3 (KT.gap KT.input) :=
  build_model_no_validation { length_TS := 50, n_classes := 3, depth := 0 } rfl

/-- C7: during assembly a shortcut module fires exactly when residual
connections are enabled and `d % 3 = 2`; it takes anchor `input_res` and the
inception output as current, and both `x` and `input_res` are reassigned to
its output; otherwise `x` becomes the inception output and `input_res` is
unchanged.  For the default configuration (`depth = 6`,
`use_residual = true`) exactly the module indices 2 and 5 fire a shortcut. -/
theorem shortcut_cadence :
    (∀ (cfg : Config) (s : BuildState) (d : Nat),
        cfg.use_residual = true → d % 3 = 2 →
        buildStep cfg s d =
          ⟨shortcut_layer s.input_res
              (inception_module cfg.use_bottleneck cfg.n_filters s.keep_track
                s.x (d == 0)).1,
            shortcut_layer s.input_res
              (inception_module cfg.use_bottleneck cfg.n_filters s.keep_track
                s.x (d == 0)).1,
            (inception_module cfg.use_bottleneck cfg.n_filters s.keep_track
              s.x (d == 0)).2⟩)
    ∧ (∀ (cfg : Config) (s : BuildState) (d : Nat),
        cfg.use_residual = false ∨ d % 3 ≠ 2 →
        (buildStep cfg s d).x
            = (inception_module cfg.use_bottleneck cfg.n_filters s.keep_track
                s.x (d == 0)).1
          ∧ (buildStep cfg s d).input_res = s.input_res)
    ∧ shortcutIndices { length_TS := 100, n_classes := 2 } = [2, 5] := by
  refine ⟨?_, ?_, by decide⟩
  · intro cfg s d h1 h2
    simp [buildStep, h1, h2]
  · intro cfg s d h
    rcases h with h | h
    · simp [buildStep, h]
    · have hb : (d % 3 == 2) = false := by simpa using h
      simp [buildStep, hb]

theorem shortcut_cadence_witness :
    (buildStep { length_TS := 100, n_classes := 2 } ⟨KT.input, KT.input, 0⟩ 2 =
      ⟨shortcut_layer KT.input (inception_module true 32 0 KT.input (2 == 0)).1,
        shortcut_layer KT.input (inception_module true 32 0 KT.input (2 == 0)).1,
        (inception_module true 32 0 KT.input (2 == 0)).2⟩)
    ∧ (buildStep { length_TS := 100, n_classes := 2 }
        ⟨KT.input, KT.input, 0⟩ 1).input_res = KT.input := by
  constructor
  · exact shortcut_cadence.1 { length_TS := 100, n_classes := 2 }
      ⟨KT.input, KT.input, 0⟩ 2 rfl rfl
  · exact (shortcut_cadence.2.1 { length_TS := 100, n_classes := 2 }
      ⟨KT.input, KT.input, 0⟩ 1 (Or.inr (by decide))).2

/-- C8: the hybrid layer is created exactly once per build: `keep_track`
(which counts every hybrid convolution ever created, starting from 0 at line
206) ends at exactly 17 — the size of one bank — for every configuration of
depth ≥ 1; the step at depth index 0 adds the bank and every other index adds
nothing; inside the inception module the hybrid layer is applied to the raw
`input_tensor` even when the bottleneck diverts the learned branches to a
projected tensor; and a module built without the hybrid flag creates no
hybrid convolution. -/
theorem hybrid_fused_once_at_first_module :
    (∀ (cfg : Config) (s : BuildState) (d : Nat), d ≠ 0 →
        (buildStep cfg s d).keep_track = s.keep_track)
    ∧ (∀ (cfg : Config) (s : BuildState),
        (buildStep cfg s 0).keep_track = s.keep_track + 17)
    ∧ (∀ cfg : Config, 1 ≤ cfg.depth →
        (buildLoop cfg cfg.depth).keep_track = 17)
    ∧ (∀ (nf kt : Nat) (t : KT), 1 < channels t →
        (inception_module true nf kt t true).1
          = KT.relu (KT.bn (concatList
              ((kernel_sizes.map fun k => KT.conv1d nf k (KT.conv1d nf 1 t))
                ++ [KT.conv1d nf 1 (KT.maxpool 3 t)]
                ++ [(hybrid_layer defaultKernelSizes kt t).1]))))
    ∧ (∀ (ub : Bool) (nf kt : Nat) (t : KT),
        (inception_module ub nf kt t false).2 = kt) := by
  have hgen : ∀ (cfg : Config) (n : Nat), 1 ≤ n →
      (buildLoop cfg n).keep_track = 17 := by
    intro cfg n h
    induction n with
    | zero => omega
    | succ m ih =>
        rw [buildLoop_succ, buildStep_keep_track]
        rcases Nat.eq_zero_or_pos m with hm | hm
        · subst hm
          simp [buildLoop]
        · rw [if_neg (by omega)]
          exact ih hm
  refine ⟨?_, ?_, fun cfg h => hgen cfg cfg.depth h, ?_, fun ub nf kt t => rfl⟩
  · intro cfg s d h
    rw [buildStep_keep_track, if_neg h]
  · intro cfg s
    rw [buildStep_keep_track, if_pos rfl]
  · intro nf kt t h
    have hb : (true && decide (1 < channels t)) = true := by simp [h]
    simp [inception_module, hb]

theorem hybrid_fused_once_at_first_module_witness :
    (buildStep { length_TS := 100, n_classes := 2 }
        ⟨KT.input, KT.input, 0⟩ 1).keep_track = 0
    ∧ (buildLoop { length_TS := 100, n_classes := 2 }
        (Config.depth { length_TS := 100, n_classes := 2 })).keep_track = 17
    ∧ (inception_module true 32 0 (KT.conv1d 2 1 KT.input) true).1
        = KT.relu (KT.bn (concatList
            ((kernel_sizes.map fun k =>
                KT.conv1d 32 k (KT.conv1d 32 1 (KT.conv1d 2 1 KT.input)))
              ++ [KT.conv1d 32 1 (KT.maxpool 3 (KT.conv1d 2 1 KT.input))]
              ++ [(hybrid_layer defaultKernelSizes 0
                    (KT.conv1d 2 1 KT.input)).1]))) := by
  refine ⟨?_, ?_, ?_⟩
  · exact hybrid_fused_once_at_first_module.1
      { length_TS := 100, n_classes := 2 } ⟨KT.input, KT.input, 0⟩ 1
      (by decide)
  · exact hybrid_fused_once_at_first_module.2.2.1
      { length_TS := 100, n_classes := 2 } (by decide)
  · exact hybrid_fused_once_at_first_module.2.2.2.1 32 0
      (KT.conv1d 2 1 KT.input) (by decide)

end HInception
